import Mathlib

/-!
Shallow embedding of the terminal-jarvis core (document chunking and
knowledge-store ingestion, task classification and execution, conversation
post-processing, transcript serialization), together with proofs checking the
natural-language specification against the code.

Python strings are modelled as Lean `String` values; Python dictionaries that
carry heterogeneous metadata are modelled as insertion-ordered association
lists (`Metadata`); machine side effects (file system, subprocesses, the
embedding model, the vector store backend) are passed in explicitly as
environment records so that every operation is a pure, executable function.
Floating-point confidence constants are modelled as rationals.
-/

namespace TerminalJarvis

/-! ### Python string primitives

Embeddings of the Python `str` operations used by the source: `in`
(substring test), `str.split()` (split on whitespace runs, dropping empty
parts), `str.strip()`, `" ".join`, `str.lower`, and `<` on strings
(lexicographic comparison of code points). -/

/-- Substring test on character lists: true when `pat` occurs contiguously in
`hay`.  Embeds Python `pat in hay` for strings. -/
def listIsSubstr (pat : List Char) : List Char → Bool
  | [] => pat.isEmpty
  | c :: t => List.isPrefixOf pat (c :: t) || listIsSubstr pat t

/-- Python `pat in hay` on strings. -/
def strIn (pat hay : String) : Bool :=
  listIsSubstr pat.data hay.data

/-- Split a character list at every character satisfying `p`, keeping empty
parts. -/
def splitCharsWhen (p : Char → Bool) : List Char → List (List Char)
  | [] => [[]]
  | c :: rest =>
    if p c then [] :: splitCharsWhen p rest
    else
      match splitCharsWhen p rest with
      | [] => [[c]]
      | w :: ws => (c :: w) :: ws

/-- Split a character list on runs of whitespace, dropping empty parts.
Embeds Python `text.split()` with no separator argument: splitting at every
whitespace character and discarding the empty parts between consecutive
separators and at the ends. -/
def splitWsChars (l : List Char) : List (List Char) :=
  (splitCharsWhen (fun c => c.isWhitespace) l).filter (fun w => !w.isEmpty)

/-- Python `text.split()`: the whitespace-delimited words of a string. -/
def pySplit (text : String) : List String :=
  (splitWsChars text.data).map (fun w => ⟨w⟩)

/-- Join character lists with a single separator character between parts. -/
def joinSep (sep : Char) : List (List Char) → List Char
  | [] => []
  | [w] => w
  | w :: ws => w ++ sep :: joinSep sep ws

/-- Python `" ".join(words)`. -/
def pyJoin (ws : List String) : String :=
  ⟨joinSep (' ') (ws.map String.data)⟩

/-- Strip leading and trailing whitespace from a character list.  Embeds
Python `str.strip()` with no argument. -/
def pyStripChars (l : List Char) : List Char :=
  ((l.dropWhile Char.isWhitespace).reverse.dropWhile Char.isWhitespace).reverse

/-- Python `text.strip()`. -/
def pyStrip (s : String) : String :=
  ⟨pyStripChars s.data⟩

/-- Python `s.lower()`, the character-wise ASCII case mapping. -/
def pyLower (s : String) : String :=
  ⟨s.data.map Char.toLower⟩

/-- Lexicographic comparison of character lists by code point. -/
def listLtChars : List Char → List Char → Bool
  | [], [] => false
  | [], _ :: _ => true
  | _ :: _, [] => false
  | a :: as, b :: bs => if a < b then true else if b < a then false else listLtChars as bs

/-- Python `a < b` on strings: lexicographic comparison by code point. -/
def pyStrLt (a b : String) : Bool :=
  listLtChars a.data b.data

/-! ### Python dictionaries

The metadata dictionaries of the source hold strings, integers and booleans.
They are modelled as insertion-ordered association lists with the update
semantics of `dict.update` / `dict[k] = v`: an existing key keeps its
position and gets the new value, a new key is appended at the end. -/

/-- Value stored in a metadata dictionary. -/
inductive MVal where
  | str (s : String)
  | num (n : Nat)
  | bool (b : Bool)
deriving DecidableEq, Repr

/-- Insertion-ordered Python dictionary with string keys. -/
abbrev Metadata := List (String × MVal)

/-- Python `d.get(k)` / `k in d` lookup. -/
def dictGet (d : Metadata) (k : String) : Option MVal :=
  match d with
  | [] => none
  | (k0, v0) :: rest => if k0 = k then some v0 else dictGet rest k

/-- Python `d[k] = v`: overwrite in place, else append. -/
def dictSet (d : Metadata) (k : String) (v : MVal) : Metadata :=
  match d with
  | [] => [(k, v)]
  | (k0, v0) :: rest => if k0 = k then (k0, v) :: rest else (k0, v0) :: dictSet rest k v

/-- Python `d.update(kvs)` applied left to right. -/
def dictUpdate (d : Metadata) (kvs : List (String × MVal)) : Metadata :=
  kvs.foldl (fun acc p => dictSet acc p.1 p.2) d

/-! ### TextChunker (src/jarvis/rag_system.py)

`chunk_text` walks `range(0, len(words), chunk_size - overlap)` and keeps
every window whose joined text strips to a non-empty string.  The Python
`range` call raises `ValueError` when the step is zero (`overlap ==
chunk_size`) and produces no indices when the step is negative (`overlap >
chunk_size`); the raised error is modelled with `Except.error`. -/

/-- Text chunker configuration; the constructor performs no validation,
exactly as `TextChunker.__init__` only stores its two arguments. -/
structure TextChunker where
  chunk_size : Nat := 1000
  overlap : Nat := 200
deriving DecidableEq, Repr

/-- One produced chunk: the dict `{"text": ..., "metadata": ...}`. -/
structure Chunk where
  text : String
  metadata : Metadata
deriving DecidableEq, Repr

/-- Python `range(0, n, step)` for a positive step. -/
def pyRange (n step : Nat) : List Nat :=
  (List.range ((n + step - 1) / step)).map (fun k => k * step)

/-- One iteration of the `chunk_text` loop body at window start `i`,
appending to the accumulated chunk list.  `chunk_index` is the number of
chunks accumulated so far, exactly as `len(chunks)` in the source. -/
def chunkStep (words : List String) (size : Nat) (metadata : Metadata)
    (acc : List Chunk) (i : Nat) : List Chunk :=
  let chunk_words := (words.drop i).take size
  let ctext := pyJoin chunk_words
  if pyStrip ctext ≠ "" then
    acc ++ [⟨ctext, dictUpdate metadata
      [("chunk_index", MVal.num acc.length),
       ("chunk_size", MVal.num chunk_words.length),
       ("start_word", MVal.num i),
       ("end_word", MVal.num (min (i + size) words.length))]⟩]
  else acc

/-- Embeds `TextChunker.chunk_text`.  A zero window advance surfaces as the
`ValueError` raised by `range`; a negative advance yields an empty range and
hence no chunks. -/
def TextChunker.chunk_text (c : TextChunker) (text : String) (metadata : Metadata) :
    Except String (List Chunk) :=
  let words := pySplit text
  if c.overlap < c.chunk_size then
    .ok ((pyRange words.length (c.chunk_size - c.overlap)).foldl
      (chunkStep words c.chunk_size metadata) [])
  else if c.chunk_size = c.overlap then
    .error ("range() arg 3 must not be zero")
  else
    .ok []

/-- Chunk metadata accessor for `start_word` (0 when absent). -/
def Chunk.start_word (c : Chunk) : Nat :=
  match dictGet c.metadata "start_word" with
  | some (.num n) => n
  | _ => 0

/-- Chunk metadata accessor for `end_word` (0 when absent). -/
def Chunk.end_word (c : Chunk) : Nat :=
  match dictGet c.metadata "end_word" with
  | some (.num n) => n
  | _ => 0

/-! ### Knowledge Store (class RAGSystem, src/jarvis/rag_system.py)

The ChromaDB collection is modelled as a list of entries keyed by unique id,
per the spec's data model for the vector-index collaborator: `get(ids=...)`
returns the entries whose id is listed, and `add` skips an entry whose id is
already present (persistent collections reject duplicate ids rather than
overwrite).  Embedding generation, document processing, content hashing and
nearest-neighbour queries are machine effects supplied by a `RagEnv`. -/

/-- One stored `(id, embedding, document, metadata)` tuple. -/
structure Entry where
  id : String
  embedding : List Int
  document : String
  metadata : Metadata
deriving DecidableEq, Repr

/-- The persistent collection state. -/
abbrev Collection := List Entry

/-- ChromaDB `collection.get(ids=...)`: the stored entries carrying one of
the requested ids. -/
def colGet (col : Collection) (ids : List String) : List Entry :=
  col.filter (fun e => ids.contains e.id)

/-- ChromaDB `collection.add`: appends entries in order, skipping any whose
id already exists in the collection (ids are unique keys). -/
def colAdd (col : Collection) (new : List Entry) : Collection :=
  new.foldl (fun c e => if c.any (fun e2 => e2.id == e.id) then c else c ++ [e]) col

/-- Result of `DocumentProcessor.process_file` in the non-error case: the
extracted text together with the full `doc_info` dict (which is also what
`add_document` passes to the chunker as chunk metadata). -/
structure DocInfo where
  text : String
  dict : Metadata
deriving DecidableEq, Repr

/-- One formatted search result `{id, text, metadata, distance}`; the
distance scale of the backend is abstract, an integer stands for it. -/
structure SearchHit where
  id : String
  text : String
  metadata : Metadata
  distance : Int
deriving DecidableEq, Repr

/-- The machine effects used by the knowledge store: document processing
(file system reads), `hashlib.md5(...).hexdigest()`, the embedding model's
`encode`, the wall clock, and the store's I/O calls — the id lookup
`collection.get(ids=...)`, the write `collection.add(...)`, and the
nearest-neighbour `collection.query(...)`.  Every one of these calls can
raise; fallible effects return `Except`, the caught exception text on the
left.  A healthy backend instantiates `col_get`/`col_add` with `colGet` and
`colAdd` wrapped in `.ok`. -/
structure RagEnv where
  process_file : String → Except String DocInfo
  md5 : String → String
  encode : List String → Except String (List (List Int))
  now : String
  col_get : Collection → List String → Except String (List Entry)
  col_add : Collection → List Entry → Except String Collection
  query : Collection → List Int → Nat → Option Metadata → Except String (List SearchHit)

/-- Result dict of `add_document`: either `{"success": False, "error": e}`
or `{"success": True, "document_id": ..., "chunks_added": ..., "metadata": ...}`. -/
inductive AddResult where
  | failure (error : String)
  | ok (document_id : String) (chunks_added : Nat) (metadata : Metadata)
deriving DecidableEq, Repr

/-- The `success` field of an `add_document` result dict. -/
def AddResult.success : AddResult → Bool
  | .failure _ => false
  | .ok _ _ _ => true

/-- Result dict of `add_text`: either `{"success": False, "error": e}` or
`{"success": True, "text_id": ..., "chunks_added": ...}`. -/
inductive AddTextResult where
  | failure (error : String)
  | ok (text_id : String) (chunks_added : Nat)
deriving DecidableEq, Repr

/-- The `success` field of an `add_text` result dict. -/
def AddTextResult.success : AddTextResult → Bool
  | .failure _ => false
  | .ok _ _ => true

/-- Embeds `RAGSystem.add_document`.  The system's chunker is constructed
with the source defaults `TextChunker()` = `(1000, 200)`.  Any caught
exception — processing, the dedup lookup `collection.get`, chunking,
embedding, or the store write `collection.add` — becomes a failure result
and leaves the collection unchanged. -/
def add_document (env : RagEnv) (col : Collection) (file_path : String) :
    AddResult × Collection :=
  match env.process_file file_path with
  | .error e => (.failure e, col)
  | .ok doc_info =>
    let doc_id := env.md5 file_path
    match env.col_get col [doc_id] with
    | .error e => (.failure e, col)
    | .ok existing =>
      if existing ≠ [] then
        (.failure ("Document already exists in knowledge base"), col)
      else
        match TextChunker.chunk_text ⟨1000, 200⟩ doc_info.text doc_info.dict with
        | .error e => (.failure e, col)
        | .ok chunks =>
          let chunk_ids := (List.range chunks.length).map
            (fun i => doc_id ++ "_chunk_" ++ toString i)
          let chunk_texts := chunks.map Chunk.text
          let chunk_metadatas := chunks.map Chunk.metadata
          match env.encode chunk_texts with
          | .error e => (.failure e, col)
          | .ok embeddings =>
            let entries := (chunk_ids.zip (embeddings.zip (chunk_texts.zip chunk_metadatas))).map
              (fun p => Entry.mk p.1 p.2.1 p.2.2.1 p.2.2.2)
            match env.col_add col entries with
            | .error e => (.failure e, col)
            | .ok col2 => (.ok doc_id chunks.length doc_info.dict, col2)

/-- Embeds `RAGSystem.add_text`.  The caller-supplied metadata dict is
mutated in place by `metadata.update({...})` before chunking; the mutation
is made explicit by returning the updated dict as the third component.  Any
caught exception — chunking, embedding, or the store write
`collection.add` — becomes a failure result and leaves the collection
unchanged. -/
def add_text (env : RagEnv) (col : Collection) (text : String)
    (metadata : Option Metadata) : AddTextResult × Collection × Metadata :=
  let md0 := metadata.getD []
  let md1 := dictUpdate md0
    [("source", MVal.str "manual_input"),
     ("added_at", MVal.str env.now),
     ("type", MVal.str "text")]
  let text_id := env.md5 text
  match TextChunker.chunk_text ⟨1000, 200⟩ text md1 with
  | .error e => (.failure e, col, md1)
  | .ok chunks =>
    match env.encode (chunks.map Chunk.text) with
    | .error e => (.failure e, col, md1)
    | .ok embeddings =>
      let chunk_ids := (List.range chunks.length).map
        (fun i => text_id ++ "_chunk_" ++ toString i)
      let entries := (chunk_ids.zip (embeddings.zip
          ((chunks.map Chunk.text).zip (chunks.map Chunk.metadata)))).map
        (fun p => Entry.mk p.1 p.2.1 p.2.2.1 p.2.2.2)
      match env.col_add col entries with
      | .error e => (.failure e, col, md1)
      | .ok col2 => (.ok text_id chunks.length, col2, md1)

/-- Embeds `RAGSystem.search`: any exception on the search path (embedding
the query, or the backend query itself) is caught and turned into the empty
result list. -/
def search (env : RagEnv) (col : Collection) (query : String) (n_results : Nat)
    (filter_metadata : Option Metadata) : List SearchHit :=
  match env.encode [query] with
  | .error _ => []
  | .ok embs =>
    match embs with
    | [] => []
    | qe :: _ =>
      match env.query col qe n_results filter_metadata with
      | .error _ => []
      | .ok hits => hits

/-! ### Task classifier (TaskSolver._analyze_task,
src/deployment/jarvis/task_automation.py) -/

/-- The five task types of the classification result. -/
inductive TaskType where
  | path_addition
  | python_setup
  | package_installation
  | system_command
  | unknown
deriving DecidableEq, Repr

/-- Classification result `{"task_type": ..., "confidence": ...}`; the
float confidence constants are modelled as rationals. -/
structure TaskAnalysis where
  task_type : TaskType
  confidence : ℚ
deriving DecidableEq, Repr

/-- Keyword set checked first, for `path_addition`. -/
def path_keywords : List String := ["add to path", "path", "environment variable", "env"]

/-- Keyword set checked second, for `python_setup`. -/
def python_setup_keywords : List String := ["python", "pip", "virtual environment", "venv"]

/-- Keyword set checked third, for `package_installation`. -/
def package_keywords : List String := ["install", "package", "pip install"]

/-- Keyword set checked fourth, for `system_command`. -/
def system_keywords : List String := ["run", "execute", "command", "cmd", "powershell"]

/-- Embeds `TaskSolver._analyze_task` (the `context` argument is unused by
the source, as here). -/
def analyze_task (task_description : String) (context : String) : TaskAnalysis :=
  let task_lower := pyLower task_description
  let _ := context
  if path_keywords.any (fun k => strIn k task_lower) then
    ⟨.path_addition, 9/10⟩
  else if python_setup_keywords.any (fun k => strIn k task_lower) then
    ⟨.python_setup, 8/10⟩
  else if package_keywords.any (fun k => strIn k task_lower) then
    ⟨.package_installation, 8/10⟩
  else if system_keywords.any (fun k => strIn k task_lower) then
    ⟨.system_command, 7/10⟩
  else
    ⟨.unknown, 0⟩

/-- The classifier as the spec words it: four fixed keyword sets evaluated
in a fixed priority order, the first set with a case-insensitive substring
match winning and yielding its fixed confidence constant, no match yielding
`{unknown, 0.0}`.  Written from the spec, to be compared with
`analyze_task`. -/
def classifySpec (task_description : String) : TaskAnalysis :=
  let table : List (List String × TaskType × ℚ) :=
    [(path_keywords, .path_addition, 9/10),
     (python_setup_keywords, .python_setup, 8/10),
     (package_keywords, .package_installation, 8/10),
     (system_keywords, .system_command, 7/10)]
  match table.find? (fun e => e.1.any (fun k => strIn k (pyLower task_description))) with
  | some e => ⟨e.2.1, e.2.2⟩
  | none => ⟨.unknown, 0⟩

/-! ### Task executor (TaskExecutor.run_command,
src/deployment/jarvis/task_automation.py)

The subprocess itself is a machine effect: its observable outcome (a
completed process with a return code and captured output, a timeout, or any
other raised exception) is an explicit input. -/

/-- Observable outcome of `subprocess.run(command, shell=..., capture_output=True,
text=True, timeout=...)`. -/
inductive SubprocessOutcome where
  | completed (returncode : Int) (stdout stderr : String)
  | timedOut
  | exn (msg : String)
deriving DecidableEq, Repr

/-- Result dict of `run_command`: `{"success", "returncode", "stdout",
"stderr"}` on completion, `{"success": False, "error": ..., "timeout": True}`
on timeout, `{"success": False, "error": ...}` on any other exception. -/
inductive RunResult where
  | completed (success : Bool) (returncode : Int) (stdout stderr : String)
  | timeout (success : Bool) (error : String) (timeout_flag : Bool)
  | failure (success : Bool) (error : String)
deriving DecidableEq, Repr

/-- The `success` field of a `run_command` result dict. -/
def RunResult.success : RunResult → Bool
  | .completed s _ _ _ => s
  | .timeout s _ _ => s
  | .failure s _ => s

/-- Subprocess launcher supplied by the machine: the outcome of running a
given command string with the given shell flag and timeout. -/
structure SubprocessEnv where
  run : String → Bool → Nat → SubprocessOutcome

/-- Embeds `TaskExecutor.run_command`. -/
def run_command (env : SubprocessEnv) (command : String) (shell : Bool := true)
    (timeLimit : Nat := 30) : RunResult :=
  match env.run command shell timeLimit with
  | .completed rc out err => .completed (rc == 0) rc out err
  | .timedOut => .timeout false ("Command timed out") true
  | .exn msg => .failure false msg

/-! ### Python setup resolver (TaskSolver._solve_python_setup_task,
src/deployment/jarvis/task_automation.py) -/

/-- One discovered Python installation `{"path", "version", "executable"}`. -/
structure PyInstall where
  path : String
  version : String
  executable : String
deriving DecidableEq, Repr

/-- Result dict of `TaskExecutor.add_to_path`; the resolver only reads its
`success` field. -/
structure PathAddResult where
  success : Bool
  message : String
deriving DecidableEq, Repr

/-- Machine effects used by the python-setup resolver: `os.path.dirname`,
`os.path.join`, `os.path.exists`, and the executor's
`add_to_path(..., permanent=True)` call. -/
structure SolverEnv where
  dirname : String → String
  joinPath : String → String → String
  path_exists : String → Bool
  add_to_path : String → PathAddResult

/-- Result dict of `_solve_python_setup_task`: either the no-installation
failure (its dict has no `task_solved` key, so `task_solved` reads as
false), or the unconditional success dict carrying `path_added`. -/
inductive PySetupResult where
  | failure (error : String) (suggestions : List String)
  | ok (action_taken : String) (python_path python_version : String) (path_added : Bool)
deriving DecidableEq, Repr

/-- The `success` field of a python-setup result dict. -/
def PySetupResult.success : PySetupResult → Bool
  | .failure _ _ => false
  | .ok _ _ _ _ => true

/-- The `task_solved` field of a python-setup result dict (absent on
failure, hence false). -/
def PySetupResult.task_solved : PySetupResult → Bool
  | .failure _ _ => false
  | .ok _ _ _ _ => true

/-- The `path_added` field of a python-setup result dict, when present. -/
def PySetupResult.path_added : PySetupResult → Option Bool
  | .failure _ _ => none
  | .ok _ _ _ b => some b

/-- The best-installation selection loop: lexicographic string comparison of
version fields, guarded by both paths containing "python". -/
def best_python (installations : List PyInstall) (first : PyInstall) : PyInstall :=
  installations.foldl
    (fun best py =>
      if strIn "python" (pyLower py.path) && strIn "python" (pyLower best.path) then
        if pyStrLt best.version py.version then py else best
      else best)
    first

/-- Embeds `TaskSolver._solve_python_setup_task`, with the discovered
installations passed in (the source obtains them from
`SystemInfo.get_python_installations`).  The `scripts_result` of the source
is computed but never read, as here. -/
def solve_python_setup_task (env : SolverEnv) (installations : List PyInstall) :
    PySetupResult :=
  match installations with
  | [] =>
    .failure ("No Python installations found")
      ["Please install Python first", "Download from python.org"]
  | first :: _ =>
    let best := best_python installations first
    let python_dir := env.dirname best.path
    let path_result := env.add_to_path python_dir
    let scripts_dir := env.joinPath python_dir "Scripts"
    let _scripts_result :=
      if env.path_exists scripts_dir then some (env.add_to_path scripts_dir) else none
    .ok ("Configured Python " ++ best.version ++ " and added to PATH")
      best.path best.version path_result.success

/-! ### Conversation orchestrator (EnhancedChatSession,
src/jarvis/enhanced_chat.py) -/

/-- The task-intent keyword list of `_is_task_request`. -/
def task_keywords : List String :=
  ["add to path", "install", "run command", "execute", "setup python",
   "create virtual environment", "install package", "configure",
   "set up", "fix", "solve", "do this", "help me with"]

/-- Embeds `EnhancedChatSession._is_task_request`. -/
def is_task_request (message : String) : Bool :=
  task_keywords.any (fun k => strIn k (pyLower message))

/-- The knowledge-base attribution note appended by `_post_process_response`. -/
def kb_attribution_note : String :=
  "\n\n*This response was enhanced with information from the knowledge base.*"

/-- The task-capability hint appended by `_post_process_response`. -/
def task_hint_note : String :=
  "\n\n*I can help automate tasks like adding to PATH, installing packages, or running commands. Just ask!*"

/-- Embeds `EnhancedChatSession._post_process_response`. -/
def post_process_response (kb_enabled task_enabled : Bool)
    (response user_message : String) : String :=
  let r1 :=
    if kb_enabled && strIn "knowledge base" (pyLower response) then
      response ++ kb_attribution_note
    else response
  if task_enabled && is_task_request user_message then r1 ++ task_hint_note else r1

/-- Embeds `EnhancedChatSession._create_enhanced_prompt` (the conversation
topic is the session's `current_topic`, `None` or a possibly empty string). -/
def create_enhanced_prompt (current_topic : Option String)
    (user_message context : String) : String :=
  let base :=
    ["You are Terminal Jarvis, an AI assistant with access to a knowledge base and task automation capabilities.",
     "You can help with programming, system administration, and general questions."]
  let withContext :=
    if context ≠ "" then
      base ++ ["\n**Relevant Information from Knowledge Base:**\n" ++ context]
    else base
  let withTopic :=
    match current_topic with
    | some t => if t ≠ "" then withContext ++ ["\n**Current Topic:** " ++ t] else withContext
    | none => withContext
  let parts := withTopic ++
    ["\n**User Question:** " ++ user_message,
     "\n**Instructions:**",
     "- Provide helpful, accurate information",
     "- If you can perform a task automatically, mention it",
     "- Use the knowledge base information to enhance your response",
     "- Be concise but thorough"]
  String.intercalate "\n" parts

/-- Machine effects of one conversation turn: context retrieval from the
knowledge store, the streamed model completion for a prompt (as the list of
streamed fragments), and the task-path handler `_handle_task_request`. -/
structure ChatEnv where
  get_context : String → String
  llm : String → List String
  handle_task : String → String

/-- Embeds `EnhancedChatSession.get_enhanced_response`: route to the task
handler when the message matches the task-intent keywords, otherwise fetch
context (when the knowledge base is enabled), build the prompt, accumulate
the streamed completion and post-process it. -/
def get_enhanced_response (env : ChatEnv) (kb_enabled task_enabled : Bool)
    (current_topic : Option String) (user_message : String) : String :=
  if is_task_request user_message then env.handle_task user_message
  else
    let context := if kb_enabled then env.get_context user_message else ""
    let prompt := create_enhanced_prompt current_topic user_message context
    let response := String.join (env.llm prompt)
    post_process_response kb_enabled task_enabled response user_message

/-! ### Transcript serialization (ChatSession.transcript_as_jsonl,
src/jarvis/chat.py)

`json.dumps(m, ensure_ascii=False)` on a `{"role": r, "content": c}` dict
produces `{"role": "<r>", "content": "<c>"}` with `"`, `\`, and the control
characters escaped (`\b \t \n \f \r` short forms, `\u00XX` otherwise) and
all other characters kept verbatim.  The loader is an external collaborator;
it is modelled from the spec below. -/

/-- One conversation message. -/
structure Message where
  role : String
  content : String
deriving DecidableEq, Repr

/-- Lowercase hexadecimal digit character for a value below 16. -/
def hexDigitChar (n : Nat) : Char :=
  if n < 10 then Char.ofNat (48 + n) else Char.ofNat (87 + n)

/-- JSON string escape of one character, as produced by `json.dumps` with
`ensure_ascii=False`. -/
def escChar (c : Char) : List Char :=
  if c = '"' then ['\\', '"']
  else if c = '\\' then ['\\', '\\']
  else if c = '\n' then ['\\', 'n']
  else if c = '\r' then ['\\', 'r']
  else if c = '\t' then ['\\', 't']
  else if c = '\x08' then ['\\', 'b']
  else if c = '\x0c' then ['\\', 'f']
  else if c.toNat < 32 then
    ['\\', 'u', '0', '0', hexDigitChar (c.toNat / 16), hexDigitChar (c.toNat % 16)]
  else [c]

/-- JSON string escape of a whole string. -/
def escString (s : String) : List Char :=
  (s.data.map escChar).flatten

/-- The characters of `json.dumps({"role": m.role, "content": m.content},
ensure_ascii=False)`. -/
def dumpMessage (m : Message) : List Char :=
  "\x7b\"role\": \"".data ++ escString m.role ++
    "\", \"content\": \"".data ++ escString m.content ++ "\"\x7d".data

/-- Embeds `ChatSession.transcript_as_jsonl`: the dumped messages joined by
newlines, with a final trailing newline. -/
def transcript_as_jsonl (messages : List Message) : String :=
  ⟨joinSep ('\n') (messages.map dumpMessage) ++ ['\n']⟩

/-- Value of a hexadecimal digit character. -/
def parseHexDigit (c : Char) : Option Nat :=
  if '0' ≤ c ∧ c ≤ '9' then some (c.toNat - 48)
  else if 'a' ≤ c ∧ c ≤ 'f' then some (c.toNat - 87)
  else if 'A' ≤ c ∧ c ≤ 'F' then some (c.toNat - 55)
  else none

/-- Short JSON escapes. -/
def unescapeShort (e : Char) : Option Char :=
  if e = '"' then some '"'
  else if e = '\\' then some '\\'
  else if e = '/' then some '/'
  else if e = 'n' then some '\n'
  else if e = 'r' then some '\r'
  else if e = 't' then some '\t'
  else if e = 'b' then some '\x08'
  else if e = 'f' then some '\x0c'
  else none

/-- Parse the body of a JSON string up to and including its closing quote,
returning the decoded characters and the remaining input. -/
def parseJsonString : List Char → Option (List Char × List Char)
  | [] => none
  | '"' :: rest => some ([], rest)
  | '\\' :: [] => none
  | '\\' :: 'u' :: h1 :: h2 :: h3 :: h4 :: rest3 =>
    match parseHexDigit h1, parseHexDigit h2, parseHexDigit h3, parseHexDigit h4 with
    | some a, some b, some c2, some d =>
      (parseJsonString rest3).map
        (fun p => (Char.ofNat (((a * 16 + b) * 16 + c2) * 16 + d) :: p.1, p.2))
    | _, _, _, _ => none
  | '\\' :: e :: rest2 =>
    match unescapeShort e with
    | some c2 => (parseJsonString rest2).map (fun p => (c2 :: p.1, p.2))
    | none => none
  | c :: rest => (parseJsonString rest).map (fun p => (c :: p.1, p.2))

/-- Consume an expected literal prefix. -/
def dropPrefixChars : List Char → List Char → Option (List Char)
  | [], l => some l
  | _ :: _, [] => none
  | p :: ps, c :: cs => if c = p then dropPrefixChars ps cs else none

/-- Parse one transcript line of the shape
`{"role": "<r>", "content": "<c>"}`. -/
def parseMessageLine (l : List Char) : Option Message :=
  match dropPrefixChars "\x7b\"role\": \"".data l with
  | none => none
  | some r1 =>
    match parseJsonString r1 with
    | none => none
    | some (role, r2) =>
      match dropPrefixChars ", \"content\": \"".data r2 with
      | none => none
      | some r3 =>
        match parseJsonString r3 with
        | none => none
        | some (content, r4) =>
          if r4 = ['\x7d'] then some ⟨⟨role⟩, ⟨content⟩⟩ else none

/-- Split a character list on a separator character, keeping empty parts. -/
def splitCharOn (sep : Char) : List Char → List (List Char)
  | [] => [[]]
  | c :: rest =>
    if c = sep then [] :: splitCharOn sep rest
    else
      match splitCharOn sep rest with
      | [] => [[c]]
      | w :: ws => (c :: w) :: ws

/-- Outcome of `DesktopApp.load_conversation`
(src/deployment/jarvis/desktop_app.py, lines 226-257): the `(role, content)`
pairs forwarded in order to the display via `add_message`, the error text of
a caught `json.loads` exception (if any — the pairs displayed before it
remain), and the session message list, which the loader resets to `[]` and
never rebuilds (the parsed messages are rendered only). -/
structure LoadResult where
  displayed : List Message
  error : Option String
  session_messages : List Message
deriving DecidableEq, Repr

/-- The line loop of `load_conversation`: a line that strips to non-empty is
decoded with `json.loads` and dispatched on its `role` — `user` and
`assistant` messages are forwarded to the display, any other role is
silently dropped.  `json.loads` is modelled by `parseMessageLine`, the
decoder for the `{"role": ..., "content": ...}` objects the saver emits; a
line outside that shape is modelled as a decode failure that aborts the loop
(as a raised exception does), keeping the pairs already displayed. -/
def loadConversationLines : List (List Char) → List Message → List Message × Option String
  | [], acc => (acc, none)
  | line :: rest, acc =>
    if pyStripChars line ≠ [] then
      match parseMessageLine (pyStripChars line) with
      | none => (acc, some ("Failed to load conversation"))
      | some msg =>
        if msg.role = "user" then
          loadConversationLines rest (acc ++ [⟨"user", msg.content⟩])
        else if msg.role = "assistant" then
          loadConversationLines rest (acc ++ [⟨"assistant", msg.content⟩])
        else loadConversationLines rest acc
    else loadConversationLines rest acc

/-- Embeds `DesktopApp.load_conversation`, the repository's transcript
loader: read the saved file's lines, clear the display, reset
`session.messages` to `[]`, then decode and display each non-blank line's
user/assistant message.  `session_messages` stays `[]`: the loader never
reconstructs the session from the parsed messages. -/
def load_conversation (s : String) : LoadResult :=
  let parsed := loadConversationLines (splitCharOn ('\n') s.data) []
  ⟨parsed.1, parsed.2, []⟩

/-! ### Concrete environments used to evaluate the model on explicit inputs -/

/-- A healthy machine environment: processing any path yields a two-word
document, hashing is a fixed hex digest, embedding succeeds, and the store
calls behave as the healthy backend (`colGet`/`colAdd`). -/
def demoEnv : RagEnv where
  process_file := fun p =>
    .ok ⟨"hello world",
      [("path", MVal.str p), ("name", MVal.str "a.txt"), ("text", MVal.str "hello world")]⟩
  md5 := fun _ => "d41"
  encode := fun ts => .ok (ts.map (fun _ => [0]))
  now := "t"
  col_get := fun col ids => .ok (colGet col ids)
  col_add := fun col new => .ok (colAdd col new)
  query := fun _ _ _ _ => .ok []

/-- The document `demoEnv` processes for the path "doc.txt". -/
def demoDoc : DocInfo :=
  ⟨"hello world",
    [("path", MVal.str "doc.txt"), ("name", MVal.str "a.txt"),
     ("text", MVal.str "hello world")]⟩

/-- The same machine with a failing embedding model: every `encode` call
raises. -/
def failingEnv : RagEnv :=
  { demoEnv with encode := fun _ => .error "Embedding failure" }

/-- The same machine with failing store writes: every `collection.add` call
raises. -/
def storeFailEnv : RagEnv :=
  { demoEnv with col_add := fun _ _ => .error "Store write failure" }

/-- A conversation-turn environment whose knowledge store returns no context
and whose model reply mentions the knowledge base. -/
def c6Env : ChatEnv where
  get_context := fun _ => ""
  llm := fun _ => ["According to the knowledge base, yes."]
  handle_task := fun _ => ""

/-! ### Dictionary lemmas -/

/-- Lookup after a single-key write. -/
theorem dictGet_dictSet (d : Metadata) (k k2 : String) (v : MVal) :
    dictGet (dictSet d k v) k2 = if k = k2 then some v else dictGet d k2 := by
  induction d with
  | nil =>
    by_cases h : k = k2 <;> simp [dictSet, dictGet, h]
  | cons p rest ih =>
    obtain ⟨k0, v0⟩ := p
    by_cases h0 : k0 = k
    · subst h0
      by_cases h : k0 = k2 <;> simp [dictSet, dictGet, h]
    · by_cases h : k0 = k2
      · subst h
        have hk : k ≠ k0 := fun hh => h0 hh.symm
        simp [dictSet, dictGet, h0, hk]
      · simp [dictSet, dictGet, h0, h, ih]

/-- The metadata dict returned by `add_text` (the caller's dict after the
in-place `update`) in every branch. -/
theorem add_text_metadata_eq (env : RagEnv) (col : Collection) (text : String)
    (metadata : Option Metadata) :
    (add_text env col text metadata).2.2 =
      dictUpdate (metadata.getD [])
        [("source", MVal.str "manual_input"),
         ("added_at", MVal.str env.now),
         ("type", MVal.str "text")] := by
  unfold add_text
  dsimp only
  split
  · rfl
  · split
    · rfl
    · split
      · rfl
      · rfl

/-- The default chunker `TextChunker()` of the knowledge store never raises:
its overlap 200 is smaller than its chunk size 1000. -/
theorem chunk_text_default_ok (text : String) (md : Metadata) :
    TextChunker.chunk_text ⟨1000, 200⟩ text md =
      .ok ((pyRange (pySplit text).length 800).foldl (chunkStep (pySplit text) 1000 md) []) := by
  unfold TextChunker.chunk_text
  norm_num

/-! ### C1 -/

set_option maxRecDepth 8000 in
/-- C1: the claim says a second `add_document` on the same path returns
`success=false` with a "document already exists" error.  On the code the
dedup lookup `collection.get(ids=[doc_id])` can never match, because chunks
are stored under ids `f"{doc_id}_chunk_{i}"` and never under the bare
`doc_id`; the second call therefore reports success again (the store itself
skips the duplicate chunk ids, leaving the chunk set unchanged). -/
theorem add_document_second_call_not_rejected :
    (add_document demoEnv [] "doc.txt").1.success = true ∧
    (add_document demoEnv (add_document demoEnv [] "doc.txt").2 "doc.txt").1.success = true ∧
    (add_document demoEnv (add_document demoEnv [] "doc.txt").2 "doc.txt").1 ≠
      AddResult.failure "Document already exists in knowledge base" ∧
    (add_document demoEnv (add_document demoEnv [] "doc.txt").2 "doc.txt").2 =
      (add_document demoEnv [] "doc.txt").2 := by
  refine ⟨rfl, rfl, ?_, rfl⟩
  intro h
  have h2 : (add_document demoEnv (add_document demoEnv [] "doc.txt").2 "doc.txt").1.success
      = true := rfl
  rw [h] at h2
  exact Bool.noConfusion h2

/-! ### C3 -/

/-- C3: classification checks the four fixed keyword sets in the priority
order path_addition, python_setup, package_installation, system_command by
case-insensitive substring membership, the first match winning with
confidence 0.9 / 0.8 / 0.8 / 0.7 and no match yielding unknown with 0.0
(`classifySpec` is that spec-side cascade); in particular the ambiguous
input classifies as `path_addition`. -/
theorem analyze_task_keyword_priority :
    (∀ t ctx : String, analyze_task t ctx = classifySpec t) ∧
    analyze_task "add python to path and install numpy" "" =
      ⟨TaskType.path_addition, 9/10⟩ := by
  constructor
  · intro t ctx
    unfold analyze_task classifySpec
    cases h1 : path_keywords.any (fun k => strIn k (pyLower t)) <;>
      cases h2 : python_setup_keywords.any (fun k => strIn k (pyLower t)) <;>
        cases h3 : package_keywords.any (fun k => strIn k (pyLower t)) <;>
          cases h4 : system_keywords.any (fun k => strIn k (pyLower t)) <;>
            simp [h1, h2, h3, h4, List.find?]
  · rfl

/-! ### C5 -/

/-- C5: `run_command` always converts the subprocess outcome into a result
value: a completed process yields the `{success, returncode, stdout, stderr}`
record with `success` true exactly when the return code is 0, a timeout
yields `{success: false, ..., timeout: true}`, and any other raised
exception yields a failure record. -/
theorem run_command_outcome_spec :
    ∀ (env : SubprocessEnv) (cmd : String) (sh : Bool) (tl : Nat),
      ((run_command env cmd sh tl).success = true ↔
        ∃ rc out err, env.run cmd sh tl = .completed rc out err ∧ rc = 0) ∧
      (env.run cmd sh tl = .timedOut →
        run_command env cmd sh tl = .timeout false "Command timed out" true) ∧
      (∀ msg, env.run cmd sh tl = .exn msg →
        run_command env cmd sh tl = .failure false msg) ∧
      (∀ rc out err, env.run cmd sh tl = .completed rc out err →
        run_command env cmd sh tl = .completed (rc == 0) rc out err) := by
  intro env cmd sh tl
  refine ⟨?_, ?_, ?_, ?_⟩
  · cases h : env.run cmd sh tl with
    | completed rc out err =>
      simp only [run_command, h, RunResult.success, beq_iff_eq]
      constructor
      · intro hrc; exact ⟨rc, out, err, rfl, hrc⟩
      · rintro ⟨rc2, out2, err2, heq, hrc⟩
        cases heq
        exact hrc
    | timedOut => simp [run_command, h, RunResult.success]
    | exn msg => simp [run_command, h, RunResult.success]
  · intro h; simp [run_command, h]
  · intro msg h; simp [run_command, h]
  · intro rc out err h; simp [run_command, h]

/-- Witness for C5: the spec's own test, `run_command("echo hello",
timeout=5)` on a machine where the shell completes with code 0 and prints
hello. -/
theorem run_command_outcome_spec_witness :
    run_command ⟨fun _ _ _ => .completed 0 "hello\n" ""⟩ "echo hello" true 5 =
      .completed true 0 "hello\n" "" := by
  have h := (run_command_outcome_spec ⟨fun _ _ _ => .completed 0 "hello\n" ""⟩
    "echo hello" true 5).2.2.2 0 "hello\n" "" rfl
  simpa using h

/-! ### C9 -/

/-- C9: `add_text` mutates the caller-supplied metadata dict in place before
chunking, inserting the keys source, added_at and type; whenever the dict
did not already carry a `source` key it is observably changed by the call
(the mutation is modelled by returning the updated dict). -/
theorem add_text_mutates_caller_metadata :
    ∀ (env : RagEnv) (col : Collection) (text : String) (md : Metadata),
      (add_text env col text (some md)).2.2 =
        dictUpdate md
          [("source", MVal.str "manual_input"),
           ("added_at", MVal.str env.now),
           ("type", MVal.str "text")] ∧
      dictGet (add_text env col text (some md)).2.2 "source" = some (MVal.str "manual_input") ∧
      dictGet (add_text env col text (some md)).2.2 "added_at" = some (MVal.str env.now) ∧
      dictGet (add_text env col text (some md)).2.2 "type" = some (MVal.str "text") ∧
      (dictGet md "source" = none → (add_text env col text (some md)).2.2 ≠ md) := by
  intro env col text md
  have hmd := add_text_metadata_eq env col text (some md)
  simp only [Option.getD_some] at hmd
  have hupd : (add_text env col text (some md)).2.2 =
      dictSet (dictSet (dictSet md "source" (MVal.str "manual_input"))
        "added_at" (MVal.str env.now)) "type" (MVal.str "text") := by
    rw [hmd]; rfl
  have hsource : dictGet (add_text env col text (some md)).2.2 "source" =
      some (MVal.str "manual_input") := by
    rw [hupd]
    rw [dictGet_dictSet, dictGet_dictSet, dictGet_dictSet]
    simp
  refine ⟨hmd, hsource, ?_, ?_, ?_⟩
  · rw [hupd, dictGet_dictSet, dictGet_dictSet]
    simp
  · rw [hupd, dictGet_dictSet]
    simp
  · intro h heq
    rw [heq] at hsource
    rw [h] at hsource
    exact Option.noConfusion hsource

/-- Witness for C9 at a concrete dict lacking the inserted keys. -/
theorem add_text_mutates_caller_metadata_witness :
    (add_text demoEnv [] "hello" (some [("a", MVal.str "b")])).2.2 ≠ [("a", MVal.str "b")] :=
  (add_text_mutates_caller_metadata demoEnv [] "hello" [("a", MVal.str "b")]).2.2.2.2
    (by decide)

/-! ### C10 -/

/-- C10: whenever at least one Python installation was discovered, the
python-setup resolver reports `success=true` and `task_solved=true`
regardless of the outcome of the underlying `add_to_path` calls; the PATH
outcome only lands in the separate `path_added` field, which mirrors the
`success` of the `add_to_path` call on the interpreter's directory. -/
theorem solve_python_setup_unconditional_success :
    ∀ (env : SolverEnv) (first : PyInstall) (rest : List PyInstall),
      (solve_python_setup_task env (first :: rest)).success = true ∧
      (solve_python_setup_task env (first :: rest)).task_solved = true ∧
      (solve_python_setup_task env (first :: rest)).path_added =
        some (env.add_to_path (env.dirname (best_python (first :: rest) first).path)).success := by
  intro env first rest
  exact ⟨rfl, rfl, rfl⟩

/-! ### C4 -/

/-- C4 (amended): every failure on the write path — a raising dedup lookup
`collection.get`, a raising embedding model, or a raising store write
`collection.add` — surfaces from `add_document`/`add_text` as
`{success: false, error}` with the collection unchanged, never an empty
success; but a search-time failure (embedding the query, or the backend
query itself) is converted into the empty result list rather than
reported. -/
theorem knowledge_store_failure_reporting :
    ∀ (env : RagEnv) (e : String),
      (∀ (col : Collection) (p : String) (doc : DocInfo),
        env.process_file p = .ok doc →
        env.col_get col [env.md5 p] = .error e →
        add_document env col p = (.failure e, col)) ∧
      (∀ (col : Collection) (p : String) (doc : DocInfo),
        env.process_file p = .ok doc →
        env.col_get col [env.md5 p] = .ok [] →
        (∀ ts, env.encode ts = .error e) →
        add_document env col p = (.failure e, col)) ∧
      (∀ (col : Collection) (p : String) (doc : DocInfo),
        env.process_file p = .ok doc →
        env.col_get col [env.md5 p] = .ok [] →
        (∀ ts, ∃ vs, env.encode ts = .ok vs) →
        (∀ (c : Collection) (new : List Entry), env.col_add c new = .error e) →
        add_document env col p = (.failure e, col)) ∧
      (∀ (col : Collection) (text : String) (md : Option Metadata),
        (∀ ts, env.encode ts = .error e) →
        (add_text env col text md).1 = .failure e ∧ (add_text env col text md).2.1 = col) ∧
      (∀ (col : Collection) (text : String) (md : Option Metadata),
        (∀ ts, ∃ vs, env.encode ts = .ok vs) →
        (∀ (c : Collection) (new : List Entry), env.col_add c new = .error e) →
        (add_text env col text md).1 = .failure e ∧ (add_text env col text md).2.1 = col) ∧
      (∀ (col : Collection) (q : String) (n : Nat) (f : Option Metadata),
        env.encode [q] = .error e → search env col q n f = []) ∧
      (∀ (col : Collection) (q : String) (n : Nat) (f : Option Metadata)
          (qe : List Int) (rest : List (List Int)),
        env.encode [q] = .ok (qe :: rest) → env.query col qe n f = .error e →
        search env col q n f = []) := by
  intro env e
  refine ⟨?_, ?_, ?_, ?_, ?_, ?_, ?_⟩
  · intro col p doc hproc hget
    unfold add_document
    simp only [hproc, hget]
  · intro col p doc hproc hget henc
    unfold add_document
    simp only [hproc, hget, chunk_text_default_ok, henc, ne_eq, not_true_eq_false,
      if_false, ite_false]
  · intro col p doc hproc hget henc hadd
    obtain ⟨vs, hvs⟩ := henc
      (((pyRange (pySplit doc.text).length 800).foldl
        (chunkStep (pySplit doc.text) 1000 doc.dict) []).map Chunk.text)
    unfold add_document
    simp only [hproc, hget, chunk_text_default_ok, hvs, hadd, ne_eq,
      not_true_eq_false, if_false, ite_false]
  · intro col text md henc
    unfold add_text
    simp [chunk_text_default_ok, henc]
  · intro col text md henc hadd
    obtain ⟨vs, hvs⟩ := henc
      (((pyRange (pySplit text).length 800).foldl
        (chunkStep (pySplit text) 1000 (dictUpdate (md.getD [])
          [("source", MVal.str "manual_input"),
           ("added_at", MVal.str env.now),
           ("type", MVal.str "text")])) []).map Chunk.text)
    unfold add_text
    simp [chunk_text_default_ok, hvs, hadd]
  · intro col q n f henc
    unfold search
    rw [henc]
  · intro col q n f qe rest henc hq
    unfold search
    rw [henc]
    dsimp only
    rw [hq]

/-- Witness for C4: a raising embedder and a raising store write are both
reported as failures with the store unchanged, and a raising search is
swallowed into the empty result. -/
theorem knowledge_store_failure_reporting_witness :
    add_document failingEnv [] "doc.txt" = (.failure "Embedding failure", []) ∧
    add_document storeFailEnv [] "doc.txt" = (.failure "Store write failure", []) ∧
    search failingEnv [] "q" 5 none = [] := by
  refine ⟨?_, ?_, ?_⟩
  · exact (knowledge_store_failure_reporting failingEnv "Embedding failure").2.1
      [] "doc.txt" demoDoc rfl rfl (fun _ => rfl)
  · exact (knowledge_store_failure_reporting storeFailEnv "Store write failure").2.2.1
      [] "doc.txt" demoDoc rfl rfl (fun ts => ⟨ts.map (fun _ => [0]), rfl⟩)
      (fun _ _ => rfl)
  · exact (knowledge_store_failure_reporting failingEnv
      "Embedding failure").2.2.2.2.2.1 [] "q" 5 none rfl

/-- Counterexample for C4 as stated: a search-time embedding failure is
silently turned into the empty result list, indistinguishable from a
successful search over an empty store. -/
theorem search_failure_counterexample :
    failingEnv.encode ["q"] = .error "Embedding failure" ∧
    search failingEnv [⟨"id0", [0], "text0", []⟩] "q" 5 none = [] ∧
    search demoEnv [] "q" 5 none = [] := by
  exact ⟨rfl, rfl, rfl⟩

/-! ### C6 -/

/-- C6 (amended): on the answer path the reply is post-processed by
appending the knowledge-base attribution note exactly when the knowledge
base is enabled and the reply mentions "knowledge base" (case-insensitively),
independently of whether any retrieved context was used; and the
task-capability hint is never appended there, because reaching the answer
path already means the task-intent keywords did not match. -/
theorem post_process_answer_path :
    ∀ (env : ChatEnv) (kb te : Bool) (topic : Option String) (msg : String),
      is_task_request msg = false →
      get_enhanced_response env kb te topic msg =
        (let response := String.join
          (env.llm (create_enhanced_prompt topic msg (if kb then env.get_context msg else "")));
        if kb && strIn "knowledge base" (pyLower response) then
          response ++ kb_attribution_note
        else response) := by
  intro env kb te topic msg h
  unfold get_enhanced_response post_process_response
  simp [h]

/-- Witness for C6 on a concrete non-task message. -/
theorem post_process_answer_path_witness :
    get_enhanced_response c6Env true true none "hello" =
      (let response := String.join
        (c6Env.llm (create_enhanced_prompt none "hello"
          (if true then c6Env.get_context "hello" else "")));
      if true && strIn "knowledge base" (pyLower response) then
        response ++ kb_attribution_note
      else response) :=
  post_process_answer_path c6Env true true none "hello" (by decide)

/-- Counterexample for C6 as stated: with the knowledge base enabled but an
empty retrieved context, a reply that mentions the knowledge base still gets
the attribution note appended, although no context was used. -/
theorem attribution_without_context_counterexample :
    c6Env.get_context "hello" = "" ∧
    is_task_request "hello" = false ∧
    get_enhanced_response c6Env true true none "hello" =
      "According to the knowledge base, yes." ++ kb_attribution_note := by
  refine ⟨rfl, by decide, ?_⟩
  decide

/-! ### C7 -/

/-- C7 (amended): `TextChunker` construction performs no validation; a
chunker with `overlap = chunk_size` makes `chunk_text` raise the `range`
ValueError at call time, and `overlap > chunk_size` silently yields no
chunks. -/
theorem chunker_overlap_misconfiguration_runtime :
    ∀ (size ov : Nat) (text : String) (md : Metadata),
      (ov = size →
        TextChunker.chunk_text ⟨size, ov⟩ text md = .error "range() arg 3 must not be zero") ∧
      (size < ov → TextChunker.chunk_text ⟨size, ov⟩ text md = .ok []) := by
  intro size ov text md
  constructor
  · intro h
    subst h
    unfold TextChunker.chunk_text
    simp
  · intro h
    have h1 : ¬ (ov < size) := by omega
    have h2 : ¬ (size = ov) := by omega
    unfold TextChunker.chunk_text
    simp [h1, h2]

/-- Witness for C7 on concrete misconfigured chunkers. -/
theorem chunker_overlap_misconfiguration_runtime_witness :
    TextChunker.chunk_text ⟨5, 5⟩ "a" [] = .error "range() arg 3 must not be zero" :=
  (chunker_overlap_misconfiguration_runtime 5 5 "a" []).1 rfl

/-- Counterexample for C7 as stated: constructing a chunker with
`overlap = chunk_size` succeeds (the constructor stores the fields
unvalidated) and the fault instead appears as a runtime error of
`chunk_text`, while `overlap > chunk_size` silently produces no chunks. -/
theorem chunker_construction_counterexample :
    (TextChunker.mk 5 5).chunk_size = 5 ∧ (TextChunker.mk 5 5).overlap = 5 ∧
    TextChunker.chunk_text ⟨5, 5⟩ "a" [] = .error "range() arg 3 must not be zero" ∧
    TextChunker.chunk_text ⟨5, 6⟩ "a" [] = .ok [] := by
  refine ⟨rfl, rfl, rfl, rfl⟩

/-! ### Chunk counting and coverage (C2) -/

/-- No part produced by `splitCharsWhen` contains a separator character. -/
theorem splitCharsWhen_no_sep (p : Char → Bool) (l : List Char) :
    ∀ w ∈ splitCharsWhen p l, ∀ c ∈ w, p c = false := by
  induction l with
  | nil =>
    intro w hw c hc
    simp only [splitCharsWhen, List.mem_singleton] at hw
    subst hw
    cases hc
  | cons a as ih =>
    intro w hw c hc
    by_cases hpa : p a = true
    · rw [splitCharsWhen, if_pos hpa] at hw
      rcases List.mem_cons.mp hw with rfl | hmem
      · cases hc
      · exact ih w hmem c hc
    · rw [splitCharsWhen, if_neg hpa] at hw
      have hpa2 : p a = false := by
        cases hb : p a
        · rfl
        · exact absurd hb hpa
      cases hsp : splitCharsWhen p as with
      | nil =>
        rw [hsp] at hw
        simp only [List.mem_singleton] at hw
        subst hw
        rcases List.mem_singleton.mp hc with rfl
        exact hpa2
      | cons w0 ws =>
        rw [hsp] at hw
        rcases List.mem_cons.mp hw with rfl | hmem
        · rcases List.mem_cons.mp hc with rfl | hc0
          · exact hpa2
          · exact ih w0 (hsp ▸ List.mem_cons_self w0 ws) c hc0
        · exact ih w (hsp ▸ List.mem_cons_of_mem w0 hmem) c hc

/-- Every word of `pySplit` is non-empty and free of whitespace. -/
theorem pySplit_words_wf (text : String) :
    ∀ w ∈ pySplit text, w.data ≠ [] ∧ ∀ c ∈ w.data, c.isWhitespace = false := by
  intro w hw
  unfold pySplit splitWsChars at hw
  rcases List.mem_map.mp hw with ⟨wl, hwl, rfl⟩
  rcases List.mem_filter.mp hwl with ⟨hmem, hne⟩
  constructor
  · intro hnil
    rw [show (String.mk wl).data = wl from rfl] at hnil
    subst hnil
    simp at hne
  · intro c hc
    exact splitCharsWhen_no_sep _ _ wl hmem c hc

/-- A list containing a character that fails the predicate does not get
dropped entirely. -/
theorem dropWhile_ne_nil (p : Char → Bool) (l : List Char) (c : Char)
    (hc : c ∈ l) (hpc : p c = false) : l.dropWhile p ≠ [] := by
  induction l with
  | nil => cases hc
  | cons a as ih =>
    rw [List.dropWhile_cons]
    by_cases hpa : p a = true
    · rw [if_pos hpa]
      rcases List.mem_cons.mp hc with hca | hmem
      · have hfa : p a = false := hca ▸ hpc
        rw [hpa] at hfa
        exact Bool.noConfusion hfa
      · exact ih hmem
    · rw [if_neg hpa]
      simp

/-- The head surviving a `dropWhile` fails the predicate. -/
theorem dropWhile_head_not (p : Char → Bool) (l : List Char) (a : Char)
    (t : List Char) (h : l.dropWhile p = a :: t) : p a = false := by
  induction l with
  | nil => cases h
  | cons b bs ih =>
    rw [List.dropWhile_cons] at h
    by_cases hpb : p b = true
    · rw [if_pos hpb] at h
      exact ih h
    · rw [if_neg hpb] at h
      injection h with h1 h2
      subst h1
      cases hb : p b with
      | false => rfl
      | true => exact absurd hb hpb

/-- A character list holding a non-whitespace character strips to a
non-empty list. -/
theorem pyStripChars_ne_nil (l : List Char) (c : Char)
    (hc : c ∈ l) (hws : c.isWhitespace = false) : pyStripChars l ≠ [] := by
  have l1ne := dropWhile_ne_nil Char.isWhitespace l c hc hws
  obtain ⟨a, t, h1⟩ : ∃ a t, l.dropWhile Char.isWhitespace = a :: t := by
    cases hcase : l.dropWhile Char.isWhitespace with
    | nil => exact absurd hcase l1ne
    | cons x xs => exact ⟨x, xs, rfl⟩
  have ha : Char.isWhitespace a = false := dropWhile_head_not _ _ _ _ h1
  have hamem : a ∈ (l.dropWhile Char.isWhitespace).reverse := by
    rw [h1]; simp
  have l2ne := dropWhile_ne_nil Char.isWhitespace _ a hamem ha
  unfold pyStripChars
  intro hcontr
  rw [List.reverse_eq_nil_iff] at hcontr
  exact l2ne hcontr

/-- Membership in the head word carries into the space-joined text. -/
theorem mem_joinSep_head (sep : Char) (w : List Char) (ws : List (List Char))
    (c : Char) (hc : c ∈ w) : c ∈ joinSep sep (w :: ws) := by
  cases ws with
  | nil => simpa [joinSep] using hc
  | cons x xs =>
    have hjoin : joinSep sep (w :: x :: xs) = w ++ sep :: joinSep sep (x :: xs) := rfl
    rw [hjoin]
    exact List.mem_append_left _ hc

/-- The window starting inside the word list joins and strips to a
non-empty text: the `chunk_text` keep-condition holds at every index below
the word count. -/
theorem chunk_window_nonblank (words : List String)
    (hwf : ∀ w ∈ words, w.data ≠ [] ∧ ∀ ch ∈ w.data, ch.isWhitespace = false)
    (size i : Nat) (hsize : 1 ≤ size) (hi : i < words.length) :
    pyStrip (pyJoin ((words.drop i).take size)) ≠ "" := by
  have hdrop : words.drop i ≠ [] := by
    intro h
    have hlen : (words.drop i).length = words.length - i := List.length_drop i words
    rw [h] at hlen
    simp at hlen
    omega
  obtain ⟨w0, rest, hw⟩ : ∃ w0 rest, words.drop i = w0 :: rest := by
    cases hcase : words.drop i with
    | nil => exact absurd hcase hdrop
    | cons x xs => exact ⟨x, xs, rfl⟩
  obtain ⟨m, hm⟩ : ∃ m, size = m + 1 := ⟨size - 1, by omega⟩
  have htake : (words.drop i).take size = w0 :: rest.take m := by
    rw [hw, hm]
    rfl
  have hw0mem : w0 ∈ words := by
    have hmem : w0 ∈ words.drop i := by
      rw [hw]; exact List.mem_cons_self w0 rest
    exact List.drop_subset i words hmem
  obtain ⟨hne, hnws⟩ := hwf w0 hw0mem
  obtain ⟨c0, t0, hc0⟩ : ∃ c0 t0, w0.data = c0 :: t0 := by
    cases h0 : w0.data with
    | nil => exact absurd h0 hne
    | cons x xs => exact ⟨x, xs, rfl⟩
  have hc0in : c0 ∈ w0.data := by rw [hc0]; exact List.mem_cons_self c0 t0
  have hc0mem : c0 ∈ joinSep (' ') (((words.drop i).take size).map String.data) := by
    rw [htake, List.map_cons]
    exact mem_joinSep_head _ _ _ _ hc0in
  have hc0ws : c0.isWhitespace = false := hnws c0 hc0in
  intro hcontr
  have hdata : pyStripChars (joinSep (' ') (((words.drop i).take size).map String.data)) = [] :=
    congrArg String.data hcontr
  exact pyStripChars_ne_nil _ c0 hc0mem hc0ws hdata

/-- The chunk-accumulating loop only ever appends. -/
theorem foldl_chunkStep_mem_acc (words : List String) (size : Nat) (md : Metadata)
    (idxs : List Nat) (acc : List Chunk) (c : Chunk) (h : c ∈ acc) :
    c ∈ idxs.foldl (chunkStep words size md) acc := by
  induction idxs generalizing acc with
  | nil => exact h
  | cons i is ih =>
    rw [List.foldl_cons]
    apply ih
    unfold chunkStep
    dsimp only
    split
    · exact List.mem_append_left _ h
    · exact h

/-- When every window passes the keep-condition, the loop produces exactly
one chunk per index. -/
theorem foldl_chunkStep_length (words : List String) (size : Nat) (md : Metadata)
    (idxs : List Nat) (acc : List Chunk)
    (hall : ∀ i ∈ idxs, pyStrip (pyJoin ((words.drop i).take size)) ≠ "") :
    (idxs.foldl (chunkStep words size md) acc).length = acc.length + idxs.length := by
  induction idxs generalizing acc with
  | nil => simp
  | cons i is ih =>
    have hcond := hall i (List.mem_cons_self i is)
    rw [List.foldl_cons, ih _ (fun j hj => hall j (List.mem_cons_of_mem _ hj))]
    have hstep : (chunkStep words size md acc i).length = acc.length + 1 := by
      unfold chunkStep
      dsimp only
      rw [if_pos hcond]
      simp
    rw [hstep]
    simp only [List.length_cons]
    omega

/-- The start and end fields of a produced chunk's metadata dict. -/
theorem chunk_fields (md : Metadata) (t : String) (a b i e : Nat) :
    Chunk.start_word ⟨t, dictUpdate md
      [("chunk_index", MVal.num a), ("chunk_size", MVal.num b),
       ("start_word", MVal.num i), ("end_word", MVal.num e)]⟩ = i ∧
    Chunk.end_word ⟨t, dictUpdate md
      [("chunk_index", MVal.num a), ("chunk_size", MVal.num b),
       ("start_word", MVal.num i), ("end_word", MVal.num e)]⟩ = e := by
  have h4 : dictUpdate md
      [("chunk_index", MVal.num a), ("chunk_size", MVal.num b),
       ("start_word", MVal.num i), ("end_word", MVal.num e)] =
      dictSet (dictSet (dictSet (dictSet md "chunk_index" (MVal.num a))
        "chunk_size" (MVal.num b)) "start_word" (MVal.num i)) "end_word" (MVal.num e) := rfl
  constructor
  · unfold Chunk.start_word
    rw [show (Chunk.mk t (dictUpdate md
      [("chunk_index", MVal.num a), ("chunk_size", MVal.num b),
       ("start_word", MVal.num i), ("end_word", MVal.num e)])).metadata =
      dictUpdate md
      [("chunk_index", MVal.num a), ("chunk_size", MVal.num b),
       ("start_word", MVal.num i), ("end_word", MVal.num e)] from rfl, h4]
    rw [dictGet_dictSet, if_neg (by decide), dictGet_dictSet, if_pos rfl]
  · unfold Chunk.end_word
    rw [show (Chunk.mk t (dictUpdate md
      [("chunk_index", MVal.num a), ("chunk_size", MVal.num b),
       ("start_word", MVal.num i), ("end_word", MVal.num e)])).metadata =
      dictUpdate md
      [("chunk_index", MVal.num a), ("chunk_size", MVal.num b),
       ("start_word", MVal.num i), ("end_word", MVal.num e)] from rfl, h4]
    rw [dictGet_dictSet, if_pos rfl]

/-- Every index fed to the loop yields a stored chunk carrying that window's
`start_word`/`end_word` range. -/
theorem foldl_chunkStep_produces (words : List String) (size : Nat) (md : Metadata)
    (idxs : List Nat) (acc : List Chunk) (i : Nat)
    (hall : ∀ j ∈ idxs, pyStrip (pyJoin ((words.drop j).take size)) ≠ "")
    (hi : i ∈ idxs) :
    ∃ ch ∈ idxs.foldl (chunkStep words size md) acc,
      ch.start_word = i ∧ ch.end_word = min (i + size) words.length := by
  induction idxs generalizing acc with
  | nil => cases hi
  | cons j js ih =>
    rw [List.foldl_cons]
    rcases List.mem_cons.mp hi with rfl | hmem
    · have hcond := hall i (List.mem_cons_self i js)
      have hstep : chunkStep words size md acc i = acc ++
          [⟨pyJoin ((words.drop i).take size), dictUpdate md
            [("chunk_index", MVal.num acc.length),
             ("chunk_size", MVal.num ((words.drop i).take size).length),
             ("start_word", MVal.num i),
             ("end_word", MVal.num (min (i + size) words.length))]⟩] := by
        unfold chunkStep
        dsimp only
        rw [if_pos hcond]
      refine ⟨⟨pyJoin ((words.drop i).take size), dictUpdate md
            [("chunk_index", MVal.num acc.length),
             ("chunk_size", MVal.num ((words.drop i).take size).length),
             ("start_word", MVal.num i),
             ("end_word", MVal.num (min (i + size) words.length))]⟩, ?_, ?_, ?_⟩
      · apply foldl_chunkStep_mem_acc
        rw [hstep]
        exact List.mem_append_right _ (List.mem_singleton_self _)
      · exact (chunk_fields md _ _ _ i _).1
      · exact (chunk_fields md _ _ _ i _).2
    · exact ih _ (fun j2 hj2 => hall j2 (List.mem_cons_of_mem _ hj2)) hmem

/-- C2 (amended): for a chunker with `overlap < chunk_size` on a text of
`N > 0` words, `chunk_text` produces exactly `ceil(N / (S - O))` chunks —
not the claimed `ceil((N - O) / (S - O))` — at least one, and their
`[start_word, end_word)` ranges cover `[0, N)` with no gaps. -/
theorem chunk_text_count_and_coverage :
    ∀ (c : TextChunker) (text : String) (md : Metadata),
      c.overlap < c.chunk_size → 0 < (pySplit text).length →
      ∃ chunks, TextChunker.chunk_text c text md = .ok chunks ∧
        chunks.length =
          ((pySplit text).length + (c.chunk_size - c.overlap) - 1) /
            (c.chunk_size - c.overlap) ∧
        1 ≤ chunks.length ∧
        ∀ w < (pySplit text).length,
          ∃ ch ∈ chunks, ch.start_word ≤ w ∧ w < ch.end_word := by
  intro c text md hov hN
  set words := pySplit text with hwords
  set N := words.length with hNdef
  set step := c.chunk_size - c.overlap with hstep
  have hstep1 : 1 ≤ step := by omega
  have hsize1 : 1 ≤ c.chunk_size := by omega
  have hceil : (N + step - 1) / step = (N - 1) / step + 1 := by
    have hrw : N + step - 1 = (N - 1) + step := by omega
    rw [hrw, Nat.add_div_right _ (by omega)]
  have hall : ∀ i ∈ pyRange N step,
      pyStrip (pyJoin ((words.drop i).take c.chunk_size)) ≠ "" := by
    intro i hi
    rcases List.mem_map.mp hi with ⟨k, hk, rfl⟩
    rw [List.mem_range] at hk
    have hilt : k * step < N := by
      have h1 : k ≤ (N - 1) / step := by
        rw [hceil] at hk
        omega
      have h2 : k * step ≤ ((N - 1) / step) * step :=
        Nat.mul_le_mul_right step h1
      have h3 : ((N - 1) / step) * step ≤ N - 1 := Nat.div_mul_le_self _ _
      omega
    exact chunk_window_nonblank words (pySplit_words_wf text) c.chunk_size
      (k * step) hsize1 hilt
  have hok : TextChunker.chunk_text c text md =
      .ok ((pyRange N step).foldl (chunkStep words c.chunk_size md) []) := by
    unfold TextChunker.chunk_text
    rw [if_pos hov]
  refine ⟨(pyRange N step).foldl (chunkStep words c.chunk_size md) [], hok, ?_, ?_, ?_⟩
  · rw [foldl_chunkStep_length words c.chunk_size md _ [] hall]
    simp [pyRange]
  · rw [foldl_chunkStep_length words c.chunk_size md _ [] hall]
    simp only [List.length_nil, Nat.zero_add, pyRange, List.length_map, List.length_range]
    rw [Nat.one_le_div_iff (by omega)]
    omega
  · intro w hw
    have hk : w / step < (N + step - 1) / step := by
      rw [hceil]
      have h1 : w / step ≤ (N - 1) / step :=
        Nat.div_le_div_right (by omega)
      omega
    have himem : (w / step) * step ∈ pyRange N step := by
      unfold pyRange
      exact List.mem_map.mpr ⟨w / step, List.mem_range.mpr hk, rfl⟩
    obtain ⟨ch, hchmem, hstart, hend⟩ :=
      foldl_chunkStep_produces words c.chunk_size md _ [] ((w / step) * step) hall himem
    refine ⟨ch, hchmem, ?_, ?_⟩
    · rw [hstart]
      exact Nat.div_mul_le_self w step
    · rw [hend]
      have hmod : step * (w / step) + w % step = w := Nat.div_add_mod w step
      have hlt : w % step < step := Nat.mod_lt _ (by omega)
      have hwin : w < (w / step) * step + step := by
        rw [Nat.mul_comm]
        omega
      have hstepsize : step ≤ c.chunk_size := Nat.sub_le _ _
      exact lt_min (by omega) hw

/-- Witness for C2 at the two-word text "a b" with chunk size 2 and
overlap 1. -/
theorem chunk_text_count_and_coverage_witness :
    ∃ chunks, TextChunker.chunk_text ⟨2, 1⟩ "a b" [] = .ok chunks ∧
      chunks.length = ((pySplit "a b").length + (2 - 1) - 1) / (2 - 1) ∧
      1 ≤ chunks.length ∧
      ∀ w < (pySplit "a b").length,
        ∃ ch ∈ chunks, ch.start_word ≤ w ∧ w < ch.end_word :=
  chunk_text_count_and_coverage ⟨2, 1⟩ "a b" [] (by decide) (by decide)

/-- Counterexample for C2 as stated: the two-word text "a b" at chunk size
2 and overlap 1 produces 2 chunks, while the claimed formula
`ceil((N - O) / (S - O))` evaluates to 1. -/
theorem chunk_count_formula_counterexample :
    (TextChunker.chunk_text ⟨2, 1⟩ "a b" []).toOption.map List.length = some 2 ∧
    ((2 : Nat) - 1 + (2 - 1) - 1) / (2 - 1) = 1 ∧
    (2 : Nat) ≠ 1 := by
  refine ⟨rfl, rfl, by decide⟩

/-! ### Transcript round trip (C8) -/

/-- Hex digits decode back to their value. -/
theorem parseHexDigit_hexDigitChar (n : Nat) (h : n < 16) :
    parseHexDigit (hexDigitChar n) = some n := by
  interval_cases n <;> decide

/-- Hex digit characters are never a newline. -/
theorem hexDigitChar_ne_newline (n : Nat) (h : n < 16) : hexDigitChar n ≠ '\n' := by
  interval_cases n <;> decide

/-- The escape of a character never contains a raw newline. -/
theorem escChar_no_newline (c : Char) : ('\n') ∉ escChar c := by
  unfold escChar
  split_ifs with h1 h2 h3 h4 h5 h6 h7 h8
  · decide
  · decide
  · decide
  · decide
  · decide
  · decide
  · decide
  · intro hmem
    have hdiv : c.toNat / 16 < 16 := by omega
    have hmod : c.toNat % 16 < 16 := Nat.mod_lt _ (by omega)
    simp only [List.mem_cons, List.mem_singleton] at hmem
    rcases hmem with h | h | h | h | h | h
    · exact absurd h.symm (by decide)
    · exact absurd h.symm (by decide)
    · exact absurd h.symm (by decide)
    · exact absurd h.symm (by decide)
    · exact hexDigitChar_ne_newline _ hdiv h.symm
    · rcases h with h | h
      · exact hexDigitChar_ne_newline _ hmod h.symm
      · cases h
  · intro hmem
    rcases List.mem_singleton.mp hmem with rfl
    exact h3 rfl

/-- Parsing the escape of one character prepends it and continues. -/
theorem parseJsonString_escChar (c : Char) (r : List Char) :
    parseJsonString (escChar c ++ r) =
      (parseJsonString r).map (fun p => (c :: p.1, p.2)) := by
  unfold escChar
  split_ifs with h1 h2 h3 h4 h5 h6 h7 h8
  · subst h1; rfl
  · subst h2; rfl
  · subst h3; rfl
  · subst h4; rfl
  · subst h5; rfl
  · subst h6; rfl
  · subst h7; rfl
  · have hdiv : c.toNat / 16 < 16 := by omega
    have hmod : c.toNat % 16 < 16 := Nat.mod_lt _ (by omega)
    have hstep : parseJsonString
        ('\\' :: 'u' :: '0' :: '0' :: hexDigitChar (c.toNat / 16) ::
          hexDigitChar (c.toNat % 16) :: r) =
        match parseHexDigit '0', parseHexDigit '0',
            parseHexDigit (hexDigitChar (c.toNat / 16)),
            parseHexDigit (hexDigitChar (c.toNat % 16)) with
        | some a, some b, some c2, some d =>
          (parseJsonString r).map
            (fun p => (Char.ofNat (((a * 16 + b) * 16 + c2) * 16 + d) :: p.1, p.2))
        | _, _, _, _ => none := rfl
    rw [show ['\\', 'u', '0', '0', hexDigitChar (c.toNat / 16),
        hexDigitChar (c.toNat % 16)] ++ r =
      '\\' :: 'u' :: '0' :: '0' :: hexDigitChar (c.toNat / 16) ::
        hexDigitChar (c.toNat % 16) :: r from rfl]
    have h0 : parseHexDigit ('0') = some 0 := rfl
    rw [hstep, h0, parseHexDigit_hexDigitChar _ hdiv, parseHexDigit_hexDigitChar _ hmod]
    dsimp only
    have harith : ((0 * 16 + 0) * 16 + c.toNat / 16) * 16 + c.toNat % 16 = c.toNat := by
      omega
    rw [harith, Char.ofNat_toNat]
  · rw [List.singleton_append]
    rw [parseJsonString.eq_def]
    simp [h1, h2]

/-- Parsing an escaped string up to its closing quote recovers it. -/
theorem parseJsonString_escList (l : List Char) (r : List Char) :
    parseJsonString ((l.map escChar).flatten ++ '"' :: r) = some (l, r) := by
  induction l with
  | nil => rfl
  | cons c cs ih =>
    rw [List.map_cons, List.flatten_cons, List.append_assoc, parseJsonString_escChar, ih]
    rfl

/-- Consuming an expected prefix succeeds on that prefix. -/
theorem dropPrefixChars_append (pre l : List Char) :
    dropPrefixChars pre (pre ++ l) = some l := by
  induction pre with
  | nil => rfl
  | cons p ps ih => simp [dropPrefixChars, ih]

/-- A dumped message line parses back to the message. -/
theorem parseMessageLine_dumpMessage (m : Message) :
    parseMessageLine (dumpMessage m) = some m := by
  have hmid : "\", \"content\": \"".data = '"' :: ", \"content\": \"".data := rfl
  have hend : "\"\x7d".data = '"' :: ['\x7d'] := rfl
  have hshape : dumpMessage m =
      "\x7b\"role\": \"".data ++ ((m.role.data.map escChar).flatten ++
        ('"' :: (", \"content\": \"".data ++ ((m.content.data.map escChar).flatten ++
          ('"' :: ['\x7d']))))) := by
    unfold dumpMessage escString
    rw [hmid, hend]
    simp [List.append_assoc]
  rw [hshape]
  unfold parseMessageLine
  rw [dropPrefixChars_append]
  dsimp only
  rw [parseJsonString_escList]
  dsimp only
  rw [dropPrefixChars_append]
  dsimp only
  rw [parseJsonString_escList]
  dsimp only
  rw [if_pos rfl]

/-- Splitting a separator-free list yields it whole. -/
theorem splitCharOn_sepfree (sep : Char) (l : List Char) (h : sep ∉ l) :
    splitCharOn sep l = [l] := by
  induction l with
  | nil => rfl
  | cons c cs ih =>
    have hc : ¬ (c = sep) := fun hh => h (hh ▸ List.mem_cons_self c cs)
    rw [splitCharOn, if_neg hc, ih (fun hm => h (List.mem_cons_of_mem _ hm))]

/-- Splitting past a separator-free prefix peels it off. -/
theorem splitCharOn_append (sep : Char) (l r : List Char) (h : sep ∉ l) :
    splitCharOn sep (l ++ sep :: r) = l :: splitCharOn sep r := by
  induction l with
  | nil =>
    rw [List.nil_append, splitCharOn, if_pos rfl]
  | cons c cs ih =>
    have hc : ¬ (c = sep) := fun hh => h (hh ▸ List.mem_cons_self c cs)
    rw [List.cons_append, splitCharOn, if_neg hc,
      ih (fun hm => h (List.mem_cons_of_mem _ hm))]

/-- Splitting a newline-joined, newline-terminated sequence of
newline-free lines recovers the lines (plus the empty part after the final
newline). -/
theorem splitCharOn_joinSep (lines : List (List Char)) (hne : lines ≠ [])
    (hfree : ∀ l ∈ lines, ('\n') ∉ l) :
    splitCharOn ('\n') (joinSep ('\n') lines ++ ['\n']) = lines ++ [[]] := by
  induction lines with
  | nil => exact absurd rfl hne
  | cons l ls ih =>
    cases ls with
    | nil =>
      show splitCharOn ('\n') (l ++ '\n' :: []) = [l, []]
      rw [splitCharOn_append _ _ _ (hfree l (List.mem_cons_self l []))]
      rfl
    | cons l2 ls2 =>
      have hj : joinSep ('\n') (l :: l2 :: ls2) =
          l ++ '\n' :: joinSep ('\n') (l2 :: ls2) := rfl
      rw [hj, List.append_assoc, List.cons_append,
        splitCharOn_append _ _ _ (hfree l (List.mem_cons_self l _)),
        ih (by simp) (fun x hx => hfree x (List.mem_cons_of_mem _ hx))]
      rfl

/-- A dumped message line contains no raw newline. -/
theorem dumpMessage_no_newline (m : Message) : ('\n') ∉ dumpMessage m := by
  unfold dumpMessage escString
  intro h
  simp only [List.mem_append] at h
  rcases h with (((h | h) | h) | h) | h
  · exact absurd h (by decide)
  · rcases List.mem_flatten.mp h with ⟨x, hx, hmem⟩
    rcases List.mem_map.mp hx with ⟨c, _, rfl⟩
    exact escChar_no_newline c hmem
  · exact absurd h (by decide)
  · rcases List.mem_flatten.mp h with ⟨x, hx, hmem⟩
    rcases List.mem_map.mp hx with ⟨c, _, rfl⟩
    exact escChar_no_newline c hmem
  · exact absurd h (by decide)

/-- A dumped message line is non-empty. -/
theorem dumpMessage_ne_nil (m : Message) : dumpMessage m ≠ [] := by
  unfold dumpMessage
  simp

/-- A list with a non-whitespace head and a non-whitespace last element
strips to itself. -/
theorem pyStripChars_eq_self (l : List Char)
    (hhead : ∃ c t, l = c :: t ∧ c.isWhitespace = false)
    (hlast : ∃ f d, l = f ++ [d] ∧ d.isWhitespace = false) :
    pyStripChars l = l := by
  obtain ⟨c, t, hct, hc⟩ := hhead
  obtain ⟨f, d, hfd, hd⟩ := hlast
  unfold pyStripChars
  have h1 : l.dropWhile Char.isWhitespace = l := by
    rw [hct, List.dropWhile_cons, if_neg (by simp [hc])]
  rw [h1]
  have h2 : l.reverse.dropWhile Char.isWhitespace = l.reverse := by
    rw [hfd, List.reverse_append, List.reverse_cons, List.reverse_nil,
      List.nil_append, List.singleton_append, List.dropWhile_cons,
      if_neg (by simp [hd])]
  rw [h2, List.reverse_reverse]

/-- A dumped message line is surrounded by braces, so Python's
`line.strip()` leaves it unchanged. -/
theorem pyStripChars_dumpMessage (m : Message) :
    pyStripChars (dumpMessage m) = dumpMessage m := by
  apply pyStripChars_eq_self
  · exact ⟨'\x7b', _, rfl, by decide⟩
  · refine ⟨"\x7b\"role\": \"".data ++ escString m.role ++
      "\", \"content\": \"".data ++ escString m.content ++ ['"'], '\x7d', ?_, by decide⟩
    unfold dumpMessage
    rw [show "\"\x7d".data = ['"'] ++ ['\x7d'] from rfl]
    simp [List.append_assoc]

/-- The loader's line loop over the saved lines of a user/assistant
conversation displays exactly the saved messages, in order, without a
decode error. -/
theorem loadConversationLines_dump (msgs : List Message) (acc : List Message)
    (hroles : ∀ m ∈ msgs, m.role = "user" ∨ m.role = "assistant") :
    loadConversationLines (msgs.map dumpMessage ++ [[]]) acc = (acc ++ msgs, none) := by
  induction msgs generalizing acc with
  | nil =>
    simp [loadConversationLines, pyStripChars]
  | cons m ms ih =>
    rw [List.map_cons, List.cons_append]
    have hcond : pyStripChars (dumpMessage m) ≠ [] := by
      rw [pyStripChars_dumpMessage]
      exact dumpMessage_ne_nil m
    simp only [loadConversationLines, pyStripChars_dumpMessage,
      parseMessageLine_dumpMessage, ne_eq]
    rw [if_pos (dumpMessage_ne_nil m)]
    rcases hroles m (List.mem_cons_self m ms) with hu | ha
    · rw [if_pos hu]
      have hmsg : (⟨"user", m.content⟩ : Message) = m := by rw [← hu]
      rw [hmsg, ih _ (fun x hx => hroles x (List.mem_cons_of_mem _ hx))]
      simp
    · have hnu : ¬ (m.role = "user") := by rw [ha]; decide
      rw [if_neg hnu, if_pos ha]
      have hmsg : (⟨"assistant", m.content⟩ : Message) = m := by rw [← ha]
      rw [hmsg, ih _ (fun x hx => hroles x (List.mem_cons_of_mem _ hx))]
      simp

/-- C8 (amended): saving a conversation with `transcript_as_jsonl` (one
JSON object `{role, content}` per line, newline-terminated) and loading it
back with the repository's loader `load_conversation` recovers, for every
conversation whose roles are `user`/`assistant` (the only roles the session
API appends), exactly the original role/content pairs in order — but only
on the display: messages with any other role are silently dropped, and
`session.messages` is reset to empty and never rebuilt from the parsed
messages. -/
theorem transcript_roundtrip :
    ∀ msgs : List Message,
      (∀ m ∈ msgs, m.role = "user" ∨ m.role = "assistant") →
      (load_conversation (transcript_as_jsonl msgs)).displayed = msgs ∧
      (load_conversation (transcript_as_jsonl msgs)).error = none ∧
      (load_conversation (transcript_as_jsonl msgs)).session_messages = [] := by
  intro msgs hroles
  have hkey : loadConversationLines
      (splitCharOn ('\n') (transcript_as_jsonl msgs).data) [] = (msgs, none) := by
    cases msgs with
    | nil => rfl
    | cons m ms =>
      rw [show (transcript_as_jsonl (m :: ms)).data =
        joinSep ('\n') ((m :: ms).map dumpMessage) ++ ['\n'] from rfl]
      rw [splitCharOn_joinSep _ (by simp)
        (fun l hl => by
          rcases List.mem_map.mp hl with ⟨msg, _, rfl⟩
          exact dumpMessage_no_newline msg)]
      rw [loadConversationLines_dump _ [] hroles]
      simp
  refine ⟨?_, ?_, rfl⟩
  · show (loadConversationLines (splitCharOn ('\n') (transcript_as_jsonl msgs).data) []).1
      = msgs
    rw [hkey]
  · show (loadConversationLines (splitCharOn ('\n') (transcript_as_jsonl msgs).data) []).2
      = none
    rw [hkey]

/-- Witness for C8 at a concrete two-message conversation. -/
theorem transcript_roundtrip_witness :
    (load_conversation (transcript_as_jsonl
      [⟨"user", "hi"⟩, ⟨"assistant", "ok"⟩])).displayed =
      [⟨"user", "hi"⟩, ⟨"assistant", "ok"⟩] ∧
    (load_conversation (transcript_as_jsonl
      [⟨"user", "hi"⟩, ⟨"assistant", "ok"⟩])).error = none ∧
    (load_conversation (transcript_as_jsonl
      [⟨"user", "hi"⟩, ⟨"assistant", "ok"⟩])).session_messages = [] :=
  transcript_roundtrip [⟨"user", "hi"⟩, ⟨"assistant", "ok"⟩] (by decide)

/-- Counterexample for C8 as stated: a one-message conversation whose role
is `system` saves fine, but the repository's loader drops it on reload (its
role matches neither dispatch arm), so parsing back yields 0 messages, not
1 — and the session message list is left empty in any case. -/
theorem system_role_message_dropped_counterexample :
    (load_conversation (transcript_as_jsonl [⟨"system", "note"⟩])).displayed = [] ∧
    (load_conversation (transcript_as_jsonl [⟨"system", "note"⟩])).session_messages = [] ∧
    ([] : List Message) ≠ [⟨"system", "note"⟩] := by
  refine ⟨rfl, rfl, by decide⟩

end TerminalJarvis
